import Mathlib

/-!
Verification of the list-parameter controller of
src/packages/ra-core/src/controller/list/useListParams.ts.

The development shallowly embeds the functions of that file:
the query resolver (getQuery, hasCustomParams, getNumberOrDefault,
parseQueryFromLocation, parseObject) and the per-tick change batcher
(changeParams and the scheduled flush).  JavaScript strings are Lean
Strings; the JSON built-ins (JSON.stringify / JSON.parse) are embedded as
an executable codec over a Json value type; the query-string library's
parse/stringify pair is embedded at the level of the decoded key/value
pairs it produces (a List (String × String)), since composing its
stringify with its parse is the identity on such pairs.  Numbers are
modelled as integers (the module only ever manipulates integral page and
perPage counts).
-/

namespace ListQuery

/-- Values of the JSON data sub-language flowing through the module:
filters, displayedFilters and the legacy filter object are JSON values
produced by JSON.parse and consumed by JSON.stringify.  Numbers are
modelled as integers. -/
inductive Json where
  | null : Json
  | bool (b : Bool) : Json
  | num (n : Int) : Json
  | str (s : String) : Json
  | arr (elems : List Json) : Json
  | obj (fields : List (String × Json)) : Json

/-- The double-quote character (code 34). -/
def quoteChar : Char := Char.ofNat 34

/-- The backslash character. -/
def backslashChar : Char := '\\'

/-- The opening-brace character (code 123). -/
def lbraceChar : Char := Char.ofNat 123

/-- The closing-brace character (code 125). -/
def rbraceChar : Char := Char.ofNat 125

/-- Decimal digit character for a value below ten. -/
def digitChar (d : Nat) : Char := Char.ofNat (48 + d)

/-- Whether a character is a decimal digit. -/
def isDigitChar (c : Char) : Bool := 48 ≤ c.toNat && c.toNat ≤ 57

/-- Numeric value of a decimal digit character. -/
def digitVal (c : Char) : Nat := c.toNat - 48

/-- Fuel-indexed helper for the decimal rendering of a natural number;
with fuel above the number it renders its digits most significant
first. -/
def natCharsAux : Nat → Nat → List Char
  | 0, _ => []
  | fuel + 1, n =>
    if n < 10 then [digitChar n]
    else natCharsAux fuel (n / 10) ++ [digitChar (n % 10)]

/-- Decimal digit characters of a natural number, most significant first
(the JavaScript decimal rendering of a nonnegative integer). -/
def natChars (n : Nat) : List Char := natCharsAux (n + 1) n

/-- Decimal rendering of an integer, as JavaScript String(n) / the JSON
number production render an integral number. -/
def intChars (n : Int) : List Char :=
  if n < 0 then '-' :: natChars n.natAbs else natChars n.natAbs

/-- Decimal rendering of an integer as a Lean String. -/
def intString (n : Int) : String := String.mk (intChars n)

/-- Longest digit prefix of a character list, together with the rest. -/
def takeDigits : List Char → List Char × List Char
  | [] => ([], [])
  | c :: cs =>
    if isDigitChar c then
      let p := takeDigits cs
      (c :: p.1, p.2)
    else ([], c :: cs)

/-- Value of a list of digit characters, accumulating left to right. -/
def digitsVal (acc : Nat) (l : List Char) : Nat :=
  l.foldl (fun a c => a * 10 + digitVal c) acc

/-- Hexadecimal digit character (lower case) for a value below sixteen. -/
def hexChar (d : Nat) : Char :=
  if d < 10 then Char.ofNat (48 + d) else Char.ofNat (87 + d)

/-- Numeric value of a hexadecimal digit character, if it is one. -/
def hexVal (c : Char) : Option Nat :=
  if 48 ≤ c.toNat ∧ c.toNat ≤ 57 then some (c.toNat - 48)
  else if 97 ≤ c.toNat ∧ c.toNat ≤ 102 then some (c.toNat - 87)
  else if 65 ≤ c.toNat ∧ c.toNat ≤ 70 then some (c.toNat - 55)
  else none

/-- Escape of one character inside a JSON string literal, following
JSON.stringify: double quote and backslash get a backslash escape, the
named control characters get their short escapes, the remaining control
characters get a u-style hexadecimal escape, and every other character is
emitted verbatim. -/
def escChar (c : Char) : List Char :=
  if c = quoteChar then [backslashChar, quoteChar]
  else if c = backslashChar then [backslashChar, backslashChar]
  else if c.toNat = 8 then [backslashChar, 'b']
  else if c.toNat = 9 then [backslashChar, 't']
  else if c.toNat = 10 then [backslashChar, 'n']
  else if c.toNat = 12 then [backslashChar, 'f']
  else if c.toNat = 13 then [backslashChar, 'r']
  else if c.toNat < 32 then
    [backslashChar, 'u', '0', '0', hexChar (c.toNat / 16), hexChar (c.toNat % 16)]
  else [c]

/-- Escape of a whole character list inside a JSON string literal. -/
def escChars : List Char → List Char
  | [] => []
  | c :: cs => escChar c ++ escChars cs

/-- JSON string literal for a String, including the surrounding quotes. -/
def encStr (s : String) : List Char := quoteChar :: (escChars s.data ++ [quoteChar])

/-- Characters of the null keyword. -/
def nullChars : List Char := ("null" : String).data

/-- Characters of the true keyword. -/
def trueChars : List Char := ("true" : String).data

/-- Characters of the false keyword. -/
def falseChars : List Char := ("false" : String).data

mutual

/-- Characters of the JSON serialization of a value, following
JSON.stringify (no added whitespace, object fields in order). -/
def encJson : Json → List Char
  | .null => nullChars
  | .bool b => if b then trueChars else falseChars
  | .num n => intChars n
  | .str s => encStr s
  | .arr l => '[' :: (encElems l ++ [']'])
  | .obj l => lbraceChar :: (encFields l ++ [rbraceChar])

/-- Comma-separated serializations of the elements of a JSON array. -/
def encElems : List Json → List Char
  | [] => []
  | [j] => encJson j
  | j :: j2 :: rest => encJson j ++ ',' :: encElems (j2 :: rest)

/-- Comma-separated serializations of the fields of a JSON object. -/
def encFields : List (String × Json) → List Char
  | [] => []
  | [(k, v)] => encStr k ++ ':' :: encJson v
  | (k, v) :: p :: rest => encStr k ++ ':' :: (encJson v ++ ',' :: encFields (p :: rest))
end

/-- Embedding of JSON.stringify on the Json value type. -/
def jsonStringify (j : Json) : String := String.mk (encJson j)

/-- Body of a JSON string literal: reads characters (resolving escapes)
up to the closing double quote, returning the decoded characters and the
input after the closing quote. -/
def parseStrBody : List Char → Option (List Char × List Char)
  | [] => none
  | c :: cs =>
    if c = quoteChar then some ([], cs)
    else if c = backslashChar then
      match cs with
      | [] => none
      | e :: cs2 =>
        if e = quoteChar then (parseStrBody cs2).map (fun p => (quoteChar :: p.1, p.2))
        else if e = backslashChar then
          (parseStrBody cs2).map (fun p => (backslashChar :: p.1, p.2))
        else if e = '/' then (parseStrBody cs2).map (fun p => ('/' :: p.1, p.2))
        else if e = 'b' then (parseStrBody cs2).map (fun p => (Char.ofNat 8 :: p.1, p.2))
        else if e = 't' then (parseStrBody cs2).map (fun p => (Char.ofNat 9 :: p.1, p.2))
        else if e = 'n' then (parseStrBody cs2).map (fun p => (Char.ofNat 10 :: p.1, p.2))
        else if e = 'f' then (parseStrBody cs2).map (fun p => (Char.ofNat 12 :: p.1, p.2))
        else if e = 'r' then (parseStrBody cs2).map (fun p => (Char.ofNat 13 :: p.1, p.2))
        else if e = 'u' then
          match cs2 with
          | h1 :: h2 :: h3 :: h4 :: cs3 =>
            match hexVal h1, hexVal h2, hexVal h3, hexVal h4 with
            | some a, some b, some c2, some d =>
              let n := ((a * 16 + b) * 16 + c2) * 16 + d
              if n < 55296 then
                (parseStrBody cs3).map (fun p => (Char.ofNat n :: p.1, p.2))
              else none
            | _, _, _, _ => none
          | _ => none
        else none
    else (parseStrBody cs).map (fun p => (c :: p.1, p.2))

mutual

/-- Fuel-indexed recursive-descent reader for one JSON value, following
the grammar JSON.parse accepts on the image of JSON.stringify (no
surrounding whitespace).  Returns the value and the unread rest. -/
def parseVal : Nat → List Char → Option (Json × List Char)
  | 0, _ => none
  | _ + 1, [] => none
  | fuel + 1, c :: cs =>
    if c = 'n' then
      match cs with
      | 'u' :: 'l' :: 'l' :: r => some (.null, r)
      | _ => none
    else if c = 't' then
      match cs with
      | 'r' :: 'u' :: 'e' :: r => some (.bool true, r)
      | _ => none
    else if c = 'f' then
      match cs with
      | 'a' :: 'l' :: 's' :: 'e' :: r => some (.bool false, r)
      | _ => none
    else if c = quoteChar then
      (parseStrBody cs).map (fun p => (.str (String.mk p.1), p.2))
    else if c = '-' then
      match takeDigits cs with
      | ([], _) => none
      | (ds, r) => some (.num (-(digitsVal 0 ds : Int)), r)
    else if isDigitChar c then
      match takeDigits (c :: cs) with
      | (ds, r) => some (.num (digitsVal 0 ds : Int), r)
    else if c = '[' then
      match cs with
      | [] => none
      | c2 :: r2 =>
        if c2 = ']' then some (.arr [], r2)
        else (parseItems fuel cs).map (fun p => (.arr p.1, p.2))
    else if c = lbraceChar then
      match cs with
      | [] => none
      | c2 :: r2 =>
        if c2 = rbraceChar then some (.obj [], r2)
        else (parseMembers fuel cs).map (fun p => (.obj p.1, p.2))
    else none

/-- Reads one or more comma-separated array items up to the closing
bracket, which it consumes. -/
def parseItems : Nat → List Char → Option (List Json × List Char)
  | 0, _ => none
  | fuel + 1, cs =>
    match parseVal fuel cs with
    | none => none
    | some (v, r) =>
      match r with
      | [] => none
      | c :: r2 =>
        if c = ',' then (parseItems fuel r2).map (fun p => (v :: p.1, p.2))
        else if c = ']' then some ([v], r2)
        else none

/-- Reads one or more comma-separated object members up to the closing
brace, which it consumes. -/
def parseMembers : Nat → List Char → Option (List (String × Json) × List Char)
  | 0, _ => none
  | fuel + 1, cs =>
    match cs with
    | [] => none
    | c :: cs2 =>
      if c = quoteChar then
        match parseStrBody cs2 with
        | none => none
        | some (k, r) =>
          match r with
          | [] => none
          | c2 :: r2 =>
            if c2 = ':' then
              match parseVal fuel r2 with
              | none => none
              | some (v, r3) =>
                match r3 with
                | [] => none
                | c3 :: r4 =>
                  if c3 = ',' then
                    (parseMembers fuel r4).map
                      (fun p => ((String.mk k, v) :: p.1, p.2))
                  else if c3 = rbraceChar then some ([(String.mk k, v)], r4)
                  else none
            else none
      else none
end

/-- Embedding of JSON.parse: parses the whole string as one JSON value,
returning none (the thrown SyntaxError of the built-in) when the string
is not valid JSON.  The fuel bound of one unit per input character plus
one is enough for every parse. -/
def jsonParse (s : String) : Option Json :=
  match parseVal (s.data.length + 1) s.data with
  | some (j, []) => some j
  | _ => none

/-- Whether a character is one of the whitespace characters that the
JavaScript parseInt skips at the start of its input. -/
def isJsSpace (c : Char) : Bool :=
  c.toNat = 32 || (9 ≤ c.toNat && c.toNat ≤ 13)

/-- Whether a character list starts with a decimal digit. -/
def digitStart : List Char → Bool
  | [] => false
  | c :: _ => isDigitChar c

mutual

/-- Fuel sufficient for parseVal to read back the serialization of a
value: one unit per parseVal, parseItems or parseMembers invocation. -/
def needFuel : Json → Nat
  | .null => 1
  | .bool _ => 1
  | .num _ => 1
  | .str _ => 1
  | .arr l => 1 + needElems l
  | .obj l => 1 + needMembers l

/-- Fuel sufficient for parseItems on the serialized elements. -/
def needElems : List Json → Nat
  | [] => 0
  | j :: rest => 1 + needFuel j + needElems rest

/-- Fuel sufficient for parseMembers on the serialized fields. -/
def needMembers : List (String × Json) → Nat
  | [] => 0
  | p :: rest => 1 + needFuel p.2 + needMembers rest
end

/-- Statement that the serialization of a value parses back to it, for
any fuel of at least the needed amount and any non-digit-leading rest. -/
def ParsesBack (j : Json) : Prop :=
  ∀ fuel rest, needFuel j ≤ fuel → digitStart rest = false →
    parseVal fuel (encJson j ++ rest) = some (j, rest)

/-- Embedding of the JavaScript parseInt(s, 10) applied after the leading
whitespace has been skipped. -/
def jsParseIntAux : List Char → Option Int
  | [] => none
  | c :: r =>
    if c = '-' then
      match takeDigits r with
      | ([], _) => none
      | (ds, _) => some (-(digitsVal 0 ds : Int))
    else if c = '+' then
      match takeDigits r with
      | ([], _) => none
      | (ds, _) => some ((digitsVal 0 ds : Int))
    else
      match takeDigits (c :: r) with
      | ([], _) => none
      | (ds, _) => some ((digitsVal 0 ds : Int))

/-- Embedding of the JavaScript parseInt(s, 10): skip leading whitespace,
read an optional sign and then the longest digit prefix; none when no
digit is found (the NaN result). -/
def jsParseInt (s : String) : Option Int :=
  jsParseIntAux (s.data.dropWhile isJsSpace)

/-!
Embedding of src/packages/ra-core/src/controller/list/useListParams.ts.

The URL query string is embedded after the query-string library has
decoded it: a list of (key, value) pairs of decoded strings.  The
query-string stringify of the flush and the parse of the next render
compose to the identity on such pairs, so a flush's navigation target is
embedded directly as the pair list it will parse back to.
-/

/-- Value of one URL query parameter or of one field of the intermediate
query object: page and perPage may hold a raw string (from the URL) or a
number (from the stored params or an injected default). -/
inductive NumOrStr where
  | num (n : Int)
  | str (s : String)
deriving DecidableEq

/-- Value of the filters or displayedFilters field: either a parsed JSON
value (after a successful JSON.parse, or coming from the store), or the
raw string left in place when parseObject skips a falsy (empty) string
value. -/
inductive FieldVal where
  | json (j : Json)
  | raw (s : String)

/-- Sort option of the caller: a field name and an order, as the
SortPayload of the source. -/
structure SortPayload where
  field : String
  order : String
deriving DecidableEq

/-- JavaScript truthiness of a JSON value. -/
def jsTruthy : Json → Bool
  | .null => false
  | .bool b => b
  | .num n => decide (n ≠ 0)
  | .str s => decide (s ≠ "")
  | .arr _ => true
  | .obj _ => true

/-- JavaScript truthiness of a filters / displayedFilters field value. -/
def fvTruthy : FieldVal → Bool
  | .json j => jsTruthy j
  | .raw s => decide (s ≠ "")

/-- JavaScript evaluation of value.length > 0 on a filters field value:
arrays and strings have a length; for other values .length is undefined
and the comparison is false. -/
def fvLengthPos : FieldVal → Bool
  | .json (.arr l) => decide (0 < l.length)
  | .json (.str s) => decide (0 < s.length)
  | .json _ => false
  | .raw s => decide (0 < s.length)

/-- Intermediate query object flowing through parseQueryFromLocation and
getQuery (a Partial ListParams of the source: every key may be absent). -/
structure QueryBase where
  page : Option NumOrStr := none
  perPage : Option NumOrStr := none
  sort : Option String := none
  order : Option String := none
  filters : Option FieldVal := none
  displayedFilters : Option FieldVal := none
  filter : Option String := none

/-- Modelled from the spec: the shape of the ListParams objects stored in
the redux state (the ListParams type itself lives outside the given
sources).  The source documents the initial store value as
filters: [], order: null, page: 1, perPage: null, sort: null; a stored
params object holds the fields of a previously resolved ParameterSet. -/
structure StoredParams where
  filters : Option FieldVal := none
  order : Option String := none
  page : Option Int := none
  perPage : Option Int := none
  sort : Option String := none
  displayedFilters : Option FieldVal := none

/-- The neutral stored params object documented in the source:
filters: [], order: null, page: 1, perPage: null, sort: null. -/
def neutralParams : StoredParams :=
  { filters := some (.json (.arr [])), order := none, page := some 1,
    perPage := none, sort := none, displayedFilters := none }

/-- Resolved list parameters as returned by getQuery: page and perPage
are numbers, the other fields are carried over from the chosen base. -/
structure ListParamsR where
  page : Int
  perPage : Int
  sort : Option String
  order : Option String
  filters : Option FieldVal
  displayedFilters : Option FieldVal
  filter : Option String

/-- The recognized query keys of the source (validQueryParams), with the
deprecated singular filter key kept for backward compatibility. -/
def validQueryParams : List String :=
  ["page", "perPage", "sort", "order", "filters", "displayedFilters", "filter"]

/-- Value of a key in the decoded URL query. -/
def getRaw (q : List (String × String)) (k : String) : Option String :=
  (q.find? (fun p => p.1 == k)).map (fun p => p.2)

/-- Embedding of parseObject applied to one field value: a present truthy
(nonempty) string is JSON.parsed in place, and the key is deleted when
the parse throws; an absent value stays absent and a falsy (empty) string
value is left untouched as a raw string. -/
def parseObject : Option String → Option FieldVal
  | none => none
  | some s =>
    if s ≠ "" then
      match jsonParse s with
      | some j => some (.json j)
      | none => none
    else some (.raw s)

/-- A FilterItem object as built by the legacy filter conversion:
field, operator "=" and the value. -/
def filterItem (f op : String) (v : Json) : Json :=
  .obj [("field", .str f), ("operator", .str op), ("value", v)]

/-- Key/value pairs enumerated by Object.keys over the parsed legacy
filter value.  The source documents the legacy filter as a field-to-value
map, and the embedding enumerates object fields; JavaScript primitives
(null, booleans, numbers) have no own enumerable properties, and the
index enumeration of strings and arrays is outside the modelled scope. -/
def jsKeys : Json → List (String × Json)
  | .obj fields => fields
  | _ => []

/-- Embedding of parseQueryFromLocation: keep the recognized keys of the
decoded query (pickBy over validQueryParams), JSON.parse the filters and
displayedFilters values in place, and convert a deprecated singular
filter value (when no truthy filters value survived) into FilterItem
entries with operator "=", deleting the filter key; a malformed legacy
value is swallowed and the key deleted. -/
def parseQueryFromLocation (raw : List (String × String)) : QueryBase :=
  let filters0 := parseObject (getRaw raw "filters")
  let displayed0 := parseObject (getRaw raw "displayedFilters")
  let filterRaw := getRaw raw "filter"
  let filtersTruthy := match filters0 with
    | some fv => fvTruthy fv
    | none => false
  let legacyActive := !filtersTruthy &&
    (match filterRaw with
     | some s => decide (s ≠ "")
     | none => false)
  if legacyActive then
    { page := (getRaw raw "page").map .str,
      perPage := (getRaw raw "perPage").map .str,
      sort := getRaw raw "sort",
      order := getRaw raw "order",
      filters :=
        match filterRaw with
        | some s =>
          (match jsonParse s with
           | some j => some (.json (.arr ((jsKeys j).map
               (fun kv => filterItem kv.1 "=" kv.2))))
           | none => filters0)
        | none => filters0,
      displayedFilters := displayed0,
      filter := none }
  else
    { page := (getRaw raw "page").map .str,
      perPage := (getRaw raw "perPage").map .str,
      sort := getRaw raw "sort",
      order := getRaw raw "order",
      filters := filters0,
      displayedFilters := displayed0,
      filter := filterRaw }

/-- Embedding of hasCustomParams: stored params count as customized if
filters is truthy with positive length, or order is non-null, or page is
not 1 (strictly, so an absent page also counts), or perPage or sort are
non-null.  An absent params object yields the falsy params value itself,
embedded as false. -/
def hasCustomParams : Option StoredParams → Bool
  | none => false
  | some p =>
    (match p.filters with
     | some fv => fvTruthy fv && fvLengthPos fv
     | none => false) ||
    p.order.isSome || decide (p.page ≠ some 1) || p.perPage.isSome || p.sort.isSome

/-- Number of keys present in the intermediate query object
(Object.keys(queryFromLocation).length). -/
def numKeys (q : QueryBase) : Nat :=
  (if q.page.isSome then 1 else 0) + (if q.perPage.isSome then 1 else 0) +
  (if q.sort.isSome then 1 else 0) + (if q.order.isSome then 1 else 0) +
  (if q.filters.isSome then 1 else 0) +
  (if q.displayedFilters.isSome then 1 else 0) +
  (if q.filter.isSome then 1 else 0)

/-- The spread of the stored params into a fresh query object, as the
source's copy of params when it is the chosen base.  Spreading an absent
params object yields the empty object (unreachable, since
hasCustomParams is then false). -/
def storedToBase : Option StoredParams → QueryBase
  | none => {}
  | some p =>
    { page := p.page.map .num, perPage := p.perPage.map .num,
      sort := p.sort, order := p.order, filters := p.filters,
      displayedFilters := p.displayedFilters, filter := none }

/-- JavaScript truthiness of an optional string (the check !query.sort of
the source: an absent or empty sort counts as missing). -/
def optStrTruthy : Option String → Bool
  | some s => decide (s ≠ "")
  | none => false

/-- Embedding of getNumberOrDefault: a string is parsed with
parseInt(s, 10) and the default is returned on NaN; an absent value is
NaN and yields the default; a number is returned unchanged. -/
def getNumberOrDefault (possibleNumber : Option NumOrStr) (defaultValue : Int) : Int :=
  match possibleNumber with
  | some (.str s) =>
    match jsParseInt s with
    | some n => n
    | none => defaultValue
  | some (.num n) => n
  | none => defaultValue

/-- The default-injection and coercion tail of getQuery, applied to the
chosen base: inject the caller's sort (field and order) when sort is
falsy, the caller's perPage when perPage is null, page 1 when page is
null; then coerce page and perPage with fallbacks 1 and 10. -/
def finalizeQuery (base : QueryBase) (sort : SortPayload) (perPage : Int) :
    ListParamsR :=
  let q1 := if optStrTruthy base.sort then base
    else { base with sort := some sort.field, order := some sort.order }
  let q2 := if q1.perPage.isSome then q1 else { q1 with perPage := some (.num perPage) }
  let q3 := if q2.page.isSome then q2 else { q2 with page := some (.num 1) }
  { page := getNumberOrDefault q3.page 1,
    perPage := getNumberOrDefault q3.perPage 10,
    sort := q3.sort, order := q3.order, filters := q3.filters,
    displayedFilters := q3.displayedFilters, filter := q3.filter }

/-- Embedding of getQuery: choose the base (the URL query when it has any
key, else a copy of the stored params when they are customized, else an
object holding only the default filters or an empty list), then inject
defaults and coerce page and perPage. -/
def getQuery (queryFromLocation : QueryBase) (params : Option StoredParams)
    (filterDefaultValues : Option (List Json)) (sort : SortPayload)
    (perPage : Int) : ListParamsR :=
  let query : QueryBase :=
    if 0 < numKeys queryFromLocation then queryFromLocation
    else if hasCustomParams params then storedToBase params
    else { filters := some (.json (.arr (filterDefaultValues.getD []))) }
  finalizeQuery query sort perPage

/-- JSON.stringify of a filters / displayedFilters field value as the
flush performs it: a structured value is serialized, and a raw leftover
string value is serialized as a JSON string. -/
def fvStringify : FieldVal → String
  | .json j => jsonStringify j
  | .raw s => jsonStringify (.str s)

/-- Embedding of the navigation query produced by the flush: the pending
params spread into a query object with filters and displayedFilters
individually JSON.stringified, listed in the alphabetical key order of
the query-string stringify, absent values omitted. -/
def serializeParams (p : ListParamsR) : List (String × String) :=
  (match p.displayedFilters with
   | some fv => [("displayedFilters", fvStringify fv)]
   | none => []) ++
  (match p.filter with
   | some s => [("filter", s)]
   | none => []) ++
  (match p.filters with
   | some fv => [("filters", fvStringify fv)]
   | none => []) ++
  (match p.order with
   | some s => [("order", s)]
   | none => []) ++
  [("page", intString p.page), ("perPage", intString p.perPage)] ++
  (match p.sort with
   | some s => [("sort", s)]
   | none => [])

/-- Actions of the parameter reducer: the action constants of the
source (SET_SORT, SET_PAGE, SET_PER_PAGE, SET_FILTERS, HIDE_FILTER,
SHOW_FILTER) with their payloads. -/
inductive Action where
  | setSort (field : String) (order : Option String)
  | setPage (page : Int)
  | setPerPage (perPage : Int)
  | setFilters (filters : FieldVal) (displayedFilters : FieldVal)
  | hideFilter (name : String)
  | showFilter (name : String) (defaultValue : Json)

/-- The ascending sort order constant. -/
def SORT_ASC : String := "ASC"

/-- The descending sort order constant. -/
def SORT_DESC : String := "DESC"

/-- The opposite of a current sort order, used when re-selecting the
current sort field toggles the order. -/
def flipOrder (o : Option String) : String :=
  if o = some SORT_ASC then SORT_DESC else SORT_ASC

/-- Removal of a name key from a displayedFilters object value. -/
def objRemove (fv : Option FieldVal) (name : String) : FieldVal :=
  match fv with
  | some (.json (.obj fields)) =>
    .json (.obj (fields.filter (fun kv => !(kv.1 == name))))
  | some other => other
  | none => .json (.obj [])

/-- Setting a name key to true in a displayedFilters object value. -/
def objSetTrue (fv : Option FieldVal) (name : String) : FieldVal :=
  match fv with
  | some (.json (.obj fields)) =>
    .json (.obj (fields.filter (fun kv => !(kv.1 == name)) ++ [(name, .bool true)]))
  | some other => other
  | none => .json (.obj [(name, .bool true)])

/-- Whether a FilterItem object carries the given field name. -/
def itemHasField (it : Json) (name : String) : Bool :=
  match it with
  | .obj fields =>
    fields.any (fun kv => kv.1 == "field" &&
      (match kv.2 with | .str s => s == name | _ => false))
  | _ => false

/-- Removal of the filter items of a field name from a filters value. -/
def arrRemoveField (fv : Option FieldVal) (name : String) : FieldVal :=
  match fv with
  | some (.json (.arr items)) =>
    .json (.arr (items.filter (fun it => !(itemHasField it name))))
  | some other => other
  | none => .json (.arr [])

/-- Seeding of a default filter value for a field name when no item for
it is present yet. -/
def arrSeedField (fv : Option FieldVal) (name : String) (v : Json) : FieldVal :=
  match fv with
  | some (.json (.arr items)) =>
    if items.any (fun it => itemHasField it name) then .json (.arr items)
    else .json (.arr (items ++ [filterItem name "=" v]))
  | some other => other
  | none => .json (.arr [filterItem name "=" v])

/-- Modelled from the spec: the pure parameter reducer.  The source
imports queryReducer from ./queryReducer, which is not among the given
sources; the spec describes it as a pure state-transition function:
set-sort takes a field and an optional order and toggles the order when
the same field is re-selected; set-page sets the page; set-per-page sets
perPage and resets page to 1; set-filters replaces filters and
displayedFilters and resets page to 1; hide-filter removes a filter's
visibility flag and its value; show-filter adds a visibility flag and
seeds a default value if not already present.  No action mutates its
input. -/
def queryReducer (p : ListParamsR) (a : Action) : ListParamsR :=
  match a with
  | .setSort f o =>
    if p.sort = some f then
      { p with sort := some f, order := some (o.getD (flipOrder p.order)) }
    else
      { p with sort := some f, order := some (o.getD SORT_ASC) }
  | .setPage n => { p with page := n }
  | .setPerPage n => { p with perPage := n, page := 1 }
  | .setFilters f d =>
    { p with filters := some f, displayedFilters := some d, page := 1 }
  | .hideFilter name =>
    { p with displayedFilters := some (objRemove p.displayedFilters name),
             filters := some (arrRemoveField p.filters name) }
  | .showFilter name v =>
    { p with displayedFilters := some (objSetTrue p.displayedFilters name),
             filters := some (arrSeedField p.filters name v) }

/-- Whether an action is a page change (action.type === SET_PAGE). -/
def isSetPage : Action → Bool
  | .setPage _ => true
  | _ => false

/-- A navigation request issued by the flush: the decoded query pairs of
the target search string and the scroll-to-top state flag. -/
structure NavRequest where
  search : List (String × String)
  scrollToTop : Bool

/-- Transient state of the change batcher within one tick: the pending
params (tempParams.current), the number of flush callbacks scheduled via
setTimeout, and the action captured by the scheduled callback closure
(the first action of the batch). -/
structure BatchState where
  temp : Option ListParamsR
  scheduled : Nat
  firstAction : Option Action

/-- Batcher state at the start of a tick: no pending params, no scheduled
callback. -/
def initialBatch : BatchState :=
  { temp := none, scheduled := 0, firstAction := none }

/-- Embedding of changeParams: when no pending params exist, reduce the
resolved query by the action, store the result as pending and schedule
one flush callback capturing this first action; otherwise only reduce the
pending params in place. -/
def changeParams (query : ListParamsR) (st : BatchState) (a : Action) : BatchState :=
  match st.temp with
  | none =>
    { temp := some (queryReducer query a), scheduled := st.scheduled + 1,
      firstAction := some a }
  | some t => { st with temp := some (queryReducer t a) }

/-- All changeParams calls of one tick, in call order, starting from the
idle batcher. -/
def submitAll (query : ListParamsR) (acts : List Action) : BatchState :=
  acts.foldl (changeParams query) initialBatch

/-- One scheduled flush callback in URL-sync mode: navigate to the
serialized pending params with the scroll flag of the captured first
action, then clear the pending params.  A callback firing with no
pending params serializes the spread of undefined, an empty query. -/
def runCallbackNav (st : BatchState) : BatchState × NavRequest :=
  match st.temp with
  | some t =>
    ({ st with temp := none },
     { search := serializeParams t,
       scrollToTop := match st.firstAction with
         | some a => isSetPage a
         | none => false })
  | none =>
    (st, { search := [],
           scrollToTop := match st.firstAction with
             | some a => isSetPage a
             | none => false })

/-- Executions of all scheduled flush callbacks in URL-sync mode; each
one issues exactly one navigation request. -/
def runCallbacksNav : Nat → BatchState → List NavRequest
  | 0, _ => []
  | n + 1, st =>
    let r := runCallbackNav st
    r.2 :: runCallbacksNav n r.1

/-- One scheduled flush callback with URL sync disabled: commit the
pending params to the local transient state and clear them. -/
def runCallbackLocal (st : BatchState) : BatchState × Option ListParamsR :=
  match st.temp with
  | some t => ({ st with temp := none }, some t)
  | none => (st, none)

/-- Executions of all scheduled flush callbacks with URL sync disabled,
listing the committed parameter sets. -/
def runCallbacksLocal : Nat → BatchState → List (Option ListParamsR)
  | 0, _ => []
  | n + 1, st =>
    let r := runCallbackLocal st
    r.2 :: runCallbacksLocal n r.1

/-- Resolved parameters of a plain example list, used by the batch
examples. -/
def exampleParams : ListParamsR :=
  { page := 1, perPage := 10, sort := some "id", order := some "ASC",
    filters := none, displayedFilters := none, filter := none }

/-- Concrete valid ParameterSet exercising the round trip. -/
def exampleParamsFull : ListParamsR :=
  { page := 3, perPage := 25, sort := some "name", order := some "DESC",
    filters := some (.json (.arr [filterItem "published" "=" (.bool true)])),
    displayedFilters := some (.json (.obj [("published", .bool true)])),
    filter := none }

/-- Nested induction principle for Json: the arr and obj cases receive the
inductive hypothesis for every member of the nested list. -/
theorem Json.inductionOn (P : Json → Prop)
    (h0 : P .null) (h1 : ∀ b, P (.bool b)) (h2 : ∀ n, P (.num n))
    (h3 : ∀ s, P (.str s))
    (h4 : ∀ l, (∀ j, j ∈ l → P j) → P (.arr l))
    (h5 : ∀ l, (∀ p, p ∈ l → P p.2) → P (.obj l)) : ∀ j, P j := fun j =>
  match j with
  | .null => h0
  | .bool b => h1 b
  | .num n => h2 n
  | .str s => h3 s
  | .arr l => h4 l (fun e he => Json.inductionOn P h0 h1 h2 h3 h4 h5 e)
  | .obj l => h5 l (fun p hp => Json.inductionOn P h0 h1 h2 h3 h4 h5 p.2)
termination_by j => sizeOf j
decreasing_by
  · have := List.sizeOf_lt_of_mem he
    simp only [Json.arr.sizeOf_spec]
    omega
  · have h1 := List.sizeOf_lt_of_mem hp
    obtain ⟨a, b⟩ := p
    simp only [Json.obj.sizeOf_spec, Prod.mk.sizeOf_spec] at *
    omega

/-- Fuel irrelevance for natCharsAux: any fuel above the argument gives
the same rendering. -/
theorem natCharsAux_congr : ∀ f1 f2 n, n < f1 → n < f2 →
    natCharsAux f1 n = natCharsAux f2 n := by
  intro f1
  induction f1 with
  | zero => intro f2 n h1; omega
  | succ f ih =>
    intro f2 n h1 h2
    match f2, h2 with
    | f2 + 1, _ =>
      simp only [natCharsAux]
      by_cases hn : n < 10
      · simp [hn]
      · simp only [hn, if_false]
        have hd : n / 10 < n := Nat.div_lt_self (by omega) (by omega)
        rw [ih f2 (n / 10) (by omega) (by omega)]

/-- Unfolding equation for natChars mirroring its mathematical
recursion. -/
theorem natChars_eq (n : Nat) : natChars n =
    if n < 10 then [digitChar n]
    else natChars (n / 10) ++ [digitChar (n % 10)] := by
  show natCharsAux (n + 1) n = _
  by_cases hn : n < 10
  · simp [natCharsAux, hn]
  · have hd : n / 10 < n := Nat.div_lt_self (by omega) (by omega)
    simp only [natCharsAux, hn, if_false]
    rw [natCharsAux_congr n (n / 10 + 1) (n / 10) (by omega) (by omega)]
    rfl

theorem char_toNat_of_lt (k : Nat) (h : k < 55296) : (Char.ofNat k).toNat = k := by
  simp [Char.ofNat, Nat.isValidChar, h, Char.ofNatAux, Char.toNat, UInt32.toNat,
    BitVec.toNat_ofNatLt]

theorem char_eq_of_toNat_eq {c d : Char} (h : c.toNat = d.toNat) : c = d :=
  Char.ext (UInt32.toNat.inj h)

theorem digitChar_toNat (d : Nat) (h : d < 10) : (digitChar d).toNat = 48 + d :=
  char_toNat_of_lt (48 + d) (by omega)

theorem isDigitChar_digitChar (d : Nat) (h : d < 10) :
    isDigitChar (digitChar d) = true := by
  simp [isDigitChar, digitChar_toNat d h]
  omega

theorem digitVal_digitChar (d : Nat) (h : d < 10) : digitVal (digitChar d) = d := by
  simp [digitVal, digitChar_toNat d h]

/-- Every character of the decimal rendering of a natural number is a
digit. -/
theorem natChars_digits (n : Nat) : ∀ c ∈ natChars n, isDigitChar c = true := by
  induction n using Nat.strong_induction_on with
  | _ n ih =>
    rw [natChars_eq]
    by_cases hn : n < 10
    · simp only [hn, if_true]
      intro c hc
      simp only [List.mem_singleton] at hc
      subst hc
      exact isDigitChar_digitChar n hn
    · simp only [hn, if_false]
      intro c hc
      rcases List.mem_append.mp hc with h | h
      · exact ih (n / 10) (Nat.div_lt_self (by omega) (by omega)) c h
      · simp only [List.mem_singleton] at h
        subst h
        exact isDigitChar_digitChar (n % 10) (Nat.mod_lt n (by omega))

theorem natChars_ne_nil (n : Nat) : natChars n ≠ [] := by
  rw [natChars_eq]
  by_cases hn : n < 10
  · simp [hn]
  · simp only [hn, if_false]
    simp

/-- takeDigits splits an all-digit prefix off exactly when the rest does
not begin with a digit. -/
theorem takeDigits_append (ds rest : List Char)
    (hds : ∀ c ∈ ds, isDigitChar c = true) (hrest : digitStart rest = false) :
    takeDigits (ds ++ rest) = (ds, rest) := by
  induction ds with
  | nil =>
    simp only [List.nil_append]
    cases rest with
    | nil => rfl
    | cons c cs =>
      simp only [digitStart] at hrest
      simp [takeDigits, hrest]
  | cons c cs ih =>
    have hc : isDigitChar c = true := hds c (by simp)
    have ihr := ih (fun x hx => hds x (by simp [hx]))
    simp only [List.cons_append, takeDigits, hc, if_true, List.append_eq, ihr]

theorem digitsVal_append (xs ys : List Char) (acc : Nat) :
    digitsVal acc (xs ++ ys) = digitsVal (digitsVal acc xs) ys := by
  simp [digitsVal, List.foldl_append]

/-- Value of the decimal rendering of a natural number, with an
accumulator. -/
theorem digitsVal_natChars (n : Nat) : ∀ acc,
    digitsVal acc (natChars n) = acc * 10 ^ (natChars n).length + n := by
  induction n using Nat.strong_induction_on with
  | _ n ih =>
    intro acc
    rw [natChars_eq]
    by_cases hn : n < 10
    · simp only [hn, if_true]
      show acc * 10 + digitVal (digitChar n) = acc * 10 ^ (List.length [digitChar n]) + n
      rw [digitVal_digitChar n hn]
      simp
    · simp only [hn, if_false]
      rw [digitsVal_append]
      have hd : n / 10 < n := Nat.div_lt_self (by omega) (by omega)
      rw [ih (n / 10) hd acc]
      have hstep : digitsVal (acc * 10 ^ (natChars (n / 10)).length + n / 10)
          [digitChar (n % 10)]
          = (acc * 10 ^ (natChars (n / 10)).length + n / 10) * 10 + n % 10 := by
        show _ * 10 + digitVal (digitChar (n % 10)) = _
        rw [digitVal_digitChar (n % 10) (Nat.mod_lt n (by omega))]
      rw [hstep]
      simp only [List.length_append, List.length_singleton]
      rw [pow_succ]
      calc (acc * 10 ^ (natChars (n / 10)).length + n / 10) * 10 + n % 10
          = acc * (10 ^ (natChars (n / 10)).length * 10) + (10 * (n / 10) + n % 10) := by
            ring
        _ = acc * (10 ^ (natChars (n / 10)).length * 10) + n := by
            rw [Nat.div_add_mod]

theorem digitsVal_natChars_zero (n : Nat) : digitsVal 0 (natChars n) = n := by
  rw [digitsVal_natChars]
  simp

/-- Reading the decimal rendering of a natural number followed by a
non-digit rest recovers the number. -/
theorem takeDigits_natChars (n : Nat) (rest : List Char)
    (hrest : digitStart rest = false) :
    takeDigits (natChars n ++ rest) = (natChars n, rest) :=
  takeDigits_append (natChars n) rest (natChars_digits n) hrest

theorem hexVal_hexChar (d : Nat) (h : d < 16) : hexVal (hexChar d) = some d := by
  unfold hexChar hexVal
  by_cases hd : d < 10
  · rw [if_pos hd, char_toNat_of_lt (48 + d) (by omega), if_pos (by omega)]
    simp only [Option.some.injEq]
    omega
  · rw [if_neg hd, char_toNat_of_lt (87 + d) (by omega), if_neg (by omega),
      if_pos (by omega)]
    simp only [Option.some.injEq]
    omega

theorem parseStrBody_quote (rest : List Char) :
    parseStrBody (quoteChar :: rest) = some ([], rest) := by
  rw [parseStrBody.eq_def]
  simp [quoteChar]

theorem parseStrBody_escQuote (cs : List Char) :
    parseStrBody (backslashChar :: quoteChar :: cs) =
      (parseStrBody cs).map (fun p => (quoteChar :: p.1, p.2)) := by
  rw [parseStrBody.eq_def]
  simp [quoteChar, backslashChar]

theorem parseStrBody_escBackslash (cs : List Char) :
    parseStrBody (backslashChar :: backslashChar :: cs) =
      (parseStrBody cs).map (fun p => (backslashChar :: p.1, p.2)) := by
  rw [parseStrBody.eq_def]
  simp [quoteChar, backslashChar]

theorem parseStrBody_escB (cs : List Char) :
    parseStrBody (backslashChar :: 'b' :: cs) =
      (parseStrBody cs).map (fun p => (Char.ofNat 8 :: p.1, p.2)) := by
  rw [parseStrBody.eq_def]
  simp [quoteChar, backslashChar]

theorem parseStrBody_escT (cs : List Char) :
    parseStrBody (backslashChar :: 't' :: cs) =
      (parseStrBody cs).map (fun p => (Char.ofNat 9 :: p.1, p.2)) := by
  rw [parseStrBody.eq_def]
  simp [quoteChar, backslashChar]

theorem parseStrBody_escN (cs : List Char) :
    parseStrBody (backslashChar :: 'n' :: cs) =
      (parseStrBody cs).map (fun p => (Char.ofNat 10 :: p.1, p.2)) := by
  rw [parseStrBody.eq_def]
  simp [quoteChar, backslashChar]

theorem parseStrBody_escF (cs : List Char) :
    parseStrBody (backslashChar :: 'f' :: cs) =
      (parseStrBody cs).map (fun p => (Char.ofNat 12 :: p.1, p.2)) := by
  rw [parseStrBody.eq_def]
  simp [quoteChar, backslashChar]

theorem parseStrBody_escR (cs : List Char) :
    parseStrBody (backslashChar :: 'r' :: cs) =
      (parseStrBody cs).map (fun p => (Char.ofNat 13 :: p.1, p.2)) := by
  rw [parseStrBody.eq_def]
  simp [quoteChar, backslashChar]

theorem parseStrBody_escU (a b c2 d : Nat) (h1 h2 h3 h4 : Char) (cs : List Char)
    (e1 : hexVal h1 = some a) (e2 : hexVal h2 = some b) (e3 : hexVal h3 = some c2)
    (e4 : hexVal h4 = some d)
    (hlt : ((a * 16 + b) * 16 + c2) * 16 + d < 55296) :
    parseStrBody (backslashChar :: 'u' :: h1 :: h2 :: h3 :: h4 :: cs) =
      (parseStrBody cs).map
        (fun p => (Char.ofNat (((a * 16 + b) * 16 + c2) * 16 + d) :: p.1, p.2)) := by
  rw [parseStrBody.eq_def]
  simp [quoteChar, backslashChar, e1, e2, e3, e4, hlt]

theorem parseStrBody_plain (c : Char) (cs : List Char)
    (h1 : c ≠ quoteChar) (h2 : c ≠ backslashChar) :
    parseStrBody (c :: cs) = (parseStrBody cs).map (fun p => (c :: p.1, p.2)) := by
  rw [parseStrBody.eq_def]
  simp only []
  rw [if_neg h1, if_neg h2]

/-- Round trip of the string-literal body: parsing the escaped characters
followed by a closing quote recovers the characters and the rest. -/
theorem parseStrBody_esc (chars : List Char) (rest : List Char) :
    parseStrBody (escChars chars ++ (quoteChar :: rest)) = some (chars, rest) := by
  induction chars with
  | nil => simp only [escChars, List.nil_append, parseStrBody_quote]
  | cons c cs ih =>
    show parseStrBody ((escChar c ++ escChars cs) ++ (quoteChar :: rest)) = _
    rw [List.append_assoc]
    unfold escChar
    by_cases hq : c = quoteChar
    · subst hq
      rw [if_pos rfl]
      simp only [List.cons_append, List.nil_append]
      rw [parseStrBody_escQuote, ih]
      rfl
    · rw [if_neg hq]
      by_cases hb : c = backslashChar
      · subst hb
        rw [if_pos rfl]
        simp only [List.cons_append, List.nil_append]
        rw [parseStrBody_escBackslash, ih]
        rfl
      · rw [if_neg hb]
        by_cases h3 : c.toNat = 8
        · rw [if_pos h3]
          simp only [List.cons_append, List.nil_append]
          rw [parseStrBody_escB, ih]
          have hc : Char.ofNat 8 = c :=
            char_eq_of_toNat_eq (by rw [char_toNat_of_lt 8 (by omega), h3])
          simp [← hc]
        · rw [if_neg h3]
          by_cases h4 : c.toNat = 9
          · rw [if_pos h4]
            simp only [List.cons_append, List.nil_append]
            rw [parseStrBody_escT, ih]
            have hc : Char.ofNat 9 = c :=
              char_eq_of_toNat_eq (by rw [char_toNat_of_lt 9 (by omega), h4])
            simp [← hc]
          · rw [if_neg h4]
            by_cases h5 : c.toNat = 10
            · rw [if_pos h5]
              simp only [List.cons_append, List.nil_append]
              rw [parseStrBody_escN, ih]
              have hc : Char.ofNat 10 = c :=
                char_eq_of_toNat_eq (by rw [char_toNat_of_lt 10 (by omega), h5])
              simp [← hc]
            · rw [if_neg h5]
              by_cases h6 : c.toNat = 12
              · rw [if_pos h6]
                simp only [List.cons_append, List.nil_append]
                rw [parseStrBody_escF, ih]
                have hc : Char.ofNat 12 = c :=
                  char_eq_of_toNat_eq (by rw [char_toNat_of_lt 12 (by omega), h6])
                simp [← hc]
              · rw [if_neg h6]
                by_cases h7 : c.toNat = 13
                · rw [if_pos h7]
                  simp only [List.cons_append, List.nil_append]
                  rw [parseStrBody_escR, ih]
                  have hc : Char.ofNat 13 = c :=
                    char_eq_of_toNat_eq (by rw [char_toNat_of_lt 13 (by omega), h7])
                  simp [← hc]
                · rw [if_neg h7]
                  by_cases h8 : c.toNat < 32
                  · rw [if_pos h8]
                    simp only [List.cons_append, List.nil_append]
                    rw [parseStrBody_escU 0 0 (c.toNat / 16) (c.toNat % 16) '0' '0'
                        (hexChar (c.toNat / 16)) (hexChar (c.toNat % 16))
                        (escChars cs ++ quoteChar :: rest)
                        (by decide) (by decide) (hexVal_hexChar _ (by omega))
                        (hexVal_hexChar _ (by omega)) (by omega), ih]
                    have hv : ((0 * 16 + 0) * 16 + c.toNat / 16) * 16 + c.toNat % 16
                        = c.toNat := by omega
                    rw [hv]
                    have hc : Char.ofNat c.toNat = c :=
                      char_eq_of_toNat_eq (char_toNat_of_lt c.toNat (by omega))
                    show some (Char.ofNat c.toNat :: cs, rest) = some (c :: cs, rest)
                    rw [hc]
                  · rw [if_neg h8]
                    simp only [List.cons_append, List.nil_append]
                    rw [parseStrBody_plain c _ hq hb, ih]
                    rfl

/-- Round trip of a whole JSON string literal including quotes. -/
theorem parseStrBody_encStr (s : String) (rest : List Char) :
    parseStrBody ((encStr s).tail ++ rest) = some (s.data, rest) := by
  show parseStrBody ((escChars s.data ++ [quoteChar]) ++ rest) = _
  rw [List.append_assoc]
  exact parseStrBody_esc s.data rest

/-- A serialized value never begins with a closing bracket, a closing
brace, or a comma, and it is never empty. -/
theorem encJson_head (j : Json) : ∃ hd tl, encJson j = hd :: tl ∧
    hd ≠ ']' ∧ hd ≠ rbraceChar ∧ hd ≠ ',' := by
  cases j with
  | null =>
    exact ⟨'n', _, by rw [encJson]; rfl, by decide, by decide, by decide⟩
  | bool b =>
    cases b with
    | true =>
      exact ⟨'t', _, by rw [encJson]; rfl, by decide, by decide, by decide⟩
    | false =>
      exact ⟨'f', _, by rw [encJson]; rfl, by decide, by decide, by decide⟩
  | num n =>
    rw [encJson, intChars]
    by_cases hn : n < 0
    · exact ⟨'-', _, by rw [if_pos hn], by decide, by decide, by decide⟩
    · rw [if_neg hn]
      obtain ⟨hd, tl, hcons⟩ : ∃ hd tl, natChars n.natAbs = hd :: tl := by
        cases h : natChars n.natAbs with
        | nil => exact absurd h (natChars_ne_nil _)
        | cons a b => exact ⟨a, b, rfl⟩
      have hdig : isDigitChar hd = true :=
        natChars_digits n.natAbs hd (by rw [hcons]; simp)
      refine ⟨hd, tl, hcons, ?_, ?_, ?_⟩
      · intro h; rw [h] at hdig; exact absurd hdig (by decide)
      · intro h; rw [h] at hdig; exact absurd hdig (by decide)
      · intro h; rw [h] at hdig; exact absurd hdig (by decide)
  | str s =>
    exact ⟨quoteChar, _, by rw [encJson, encStr], by decide, by decide, by decide⟩
  | arr l =>
    exact ⟨'[', _, by rw [encJson], by decide, by decide, by decide⟩
  | obj l =>
    exact ⟨lbraceChar, _, by rw [encJson], by decide, by decide, by decide⟩

theorem digitStart_cons (c : Char) (l : List Char) :
    digitStart (c :: l) = isDigitChar c := rfl

theorem parseVal_cons (f : Nat) (c : Char) (cs : List Char) :
    parseVal (f + 1) (c :: cs) =
      (if c = 'n' then
        match cs with
        | 'u' :: 'l' :: 'l' :: r => some (.null, r)
        | _ => none
      else if c = 't' then
        match cs with
        | 'r' :: 'u' :: 'e' :: r => some (.bool true, r)
        | _ => none
      else if c = 'f' then
        match cs with
        | 'a' :: 'l' :: 's' :: 'e' :: r => some (.bool false, r)
        | _ => none
      else if c = quoteChar then
        (parseStrBody cs).map (fun p => (.str (String.mk p.1), p.2))
      else if c = '-' then
        match takeDigits cs with
        | ([], _) => none
        | (ds, r) => some (.num (-(digitsVal 0 ds : Int)), r)
      else if isDigitChar c then
        match takeDigits (c :: cs) with
        | (ds, r) => some (.num (digitsVal 0 ds : Int), r)
      else if c = '[' then
        match cs with
        | [] => none
        | c2 :: r2 =>
          if c2 = ']' then some (.arr [], r2)
          else (parseItems f cs).map (fun p => (.arr p.1, p.2))
      else if c = lbraceChar then
        match cs with
        | [] => none
        | c2 :: r2 =>
          if c2 = rbraceChar then some (.obj [], r2)
          else (parseMembers f cs).map (fun p => (.obj p.1, p.2))
      else none) := rfl

theorem parseVal_numBranch (f : Nat) (c : Char) (cs : List Char)
    (hc : isDigitChar c = true) :
    parseVal (f + 1) (c :: cs) =
      (match takeDigits (c :: cs) with
       | (ds, r) => some (Json.num (digitsVal 0 ds : Int), r)) := by
  have h1 : c ≠ 'n' := fun h => absurd (h ▸ hc) (by decide)
  have h2 : c ≠ 't' := fun h => absurd (h ▸ hc) (by decide)
  have h3 : c ≠ 'f' := fun h => absurd (h ▸ hc) (by decide)
  have h4 : c ≠ quoteChar := fun h => absurd (h ▸ hc) (by decide)
  have h5 : c ≠ '-' := fun h => absurd (h ▸ hc) (by decide)
  rw [parseVal_cons, if_neg h1, if_neg h2, if_neg h3, if_neg h4, if_neg h5, hc]
  rfl

/-- Parsing the serialized nonnegative number of a digit run followed by
a non-digit rest yields the number. -/
theorem parseVal_natChars (f : Nat) (m : Nat) (rest : List Char)
    (hrest : digitStart rest = false) :
    parseVal (f + 1) (natChars m ++ rest) = some (Json.num (m : Int), rest) := by
  obtain ⟨hd, tl, hcons⟩ : ∃ hd tl, natChars m = hd :: tl := by
    cases h : natChars m with
    | nil => exact absurd h (natChars_ne_nil _)
    | cons a b => exact ⟨a, b, rfl⟩
  have hdig : isDigitChar hd = true := natChars_digits m hd (by rw [hcons]; simp)
  rw [hcons, List.cons_append, parseVal_numBranch f hd (tl ++ rest) hdig,
    ← List.cons_append, ← hcons, takeDigits_natChars m rest hrest]
  show some (Json.num (digitsVal 0 (natChars m) : Int), rest) = _
  rw [digitsVal_natChars_zero]

/-- Round trip for array elements: reading the serialized elements up to
the closing bracket recovers them. -/
theorem parseItems_enc : ∀ (l : List Json), (∀ e ∈ l, ParsesBack e) → l ≠ [] →
    ∀ fuel rest, needElems l ≤ fuel → digitStart rest = false →
    parseItems fuel (encElems l ++ (']' :: rest)) = some (l, rest)
  | [], _, hne => absurd rfl hne
  | [j], IH, _ => by
    intro fuel rest hfuel hrest
    rw [needElems, needElems] at hfuel
    obtain ⟨f, rfl⟩ : ∃ f, fuel = f + 1 := ⟨fuel - 1, by omega⟩
    have hv := IH j (by simp) f (']' :: rest) (by omega)
      (by rw [digitStart_cons]; decide)
    rw [encElems, parseItems.eq_def]
    simp only [hv]
    simp
  | j :: j2 :: r2, IH, _ => by
    intro fuel rest hfuel hrest
    rw [needElems] at hfuel
    obtain ⟨f, rfl⟩ : ∃ f, fuel = f + 1 := ⟨fuel - 1, by omega⟩
    have hv := IH j (by simp) f
      (',' :: (encElems (j2 :: r2) ++ (']' :: rest)))
      (by omega) (by rw [digitStart_cons]; decide)
    have hr := parseItems_enc (j2 :: r2) (fun e he => IH e (by simp [he]))
      (by simp) f rest (by omega) hrest
    rw [encElems, parseItems.eq_def]
    rw [List.append_assoc, List.cons_append]
    simp only [hv]
    simp [hr]

theorem parseMembers_cons (f : Nat) (c : Char) (cs2 : List Char) :
    parseMembers (f + 1) (c :: cs2) =
      (if c = quoteChar then
        match parseStrBody cs2 with
        | none => none
        | some (k, r) =>
          match r with
          | [] => none
          | c2 :: r2 =>
            if c2 = ':' then
              match parseVal f r2 with
              | none => none
              | some (v, r3) =>
                match r3 with
                | [] => none
                | c3 :: r4 =>
                  if c3 = ',' then
                    (parseMembers f r4).map (fun p => ((String.mk k, v) :: p.1, p.2))
                  else if c3 = rbraceChar then some ([(String.mk k, v)], r4)
                  else none
            else none
      else none) := rfl

/-- Round trip for object members: reading the serialized fields up to
the closing brace recovers them. -/
theorem parseMembers_enc : ∀ (l : List (String × Json)),
    (∀ p ∈ l, ParsesBack p.2) → l ≠ [] →
    ∀ fuel rest, needMembers l ≤ fuel → digitStart rest = false →
    parseMembers fuel (encFields l ++ (rbraceChar :: rest)) = some (l, rest)
  | [], _, hne => absurd rfl hne
  | [(k, v)], IH, _ => by
    intro fuel rest hfuel hrest
    rw [needMembers, needMembers] at hfuel
    have hfx : needFuel (k, v).2 = needFuel v := rfl
    obtain ⟨f, rfl⟩ : ∃ f, fuel = f + 1 := ⟨fuel - 1, by omega⟩
    have hv : parseVal f (encJson v ++ (rbraceChar :: rest)) =
        some (v, rbraceChar :: rest) :=
      IH (k, v) (by simp) f (rbraceChar :: rest) (by omega)
        (by rw [digitStart_cons]; decide)
    rw [encFields, encStr]
    simp only [List.cons_append, List.append_assoc, List.nil_append]
    rw [parseMembers_cons, if_pos rfl]
    have hne1 : ¬(rbraceChar = ',') := by decide
    simp [parseStrBody_esc, hv, hne1]
  | (k, v) :: p :: r2, IH, _ => by
    intro fuel rest hfuel hrest
    rw [needMembers] at hfuel
    have hfx : needFuel (k, v).2 = needFuel v := rfl
    obtain ⟨f, rfl⟩ : ∃ f, fuel = f + 1 := ⟨fuel - 1, by omega⟩
    have hv : parseVal f (encJson v ++
        (',' :: (encFields (p :: r2) ++ (rbraceChar :: rest)))) =
        some (v, ',' :: (encFields (p :: r2) ++ (rbraceChar :: rest))) :=
      IH (k, v) (by simp) f
        (',' :: (encFields (p :: r2) ++ (rbraceChar :: rest)))
        (by omega) (by rw [digitStart_cons]; decide)
    have hr := parseMembers_enc (p :: r2) (fun q hq => IH q (by simp [hq]))
      (by simp) f rest (by omega) hrest
    rw [encFields, encStr]
    simp only [List.cons_append, List.append_assoc, List.nil_append]
    rw [parseMembers_cons, if_pos rfl]
    simp only [List.cons_append, List.append_assoc] at hv
    simp [parseStrBody_esc, hv, hr]

/-- Main round-trip statement: every serialized value parses back. -/
theorem parsesBack_all : ∀ j, ParsesBack j := by
  refine Json.inductionOn ParsesBack ?_ ?_ ?_ ?_ ?_ ?_
  · intro fuel rest hf hr
    obtain ⟨f, rfl⟩ : ∃ f, fuel = f + 1 := ⟨fuel - 1, by rw [needFuel] at hf; omega⟩
    rw [encJson]
    rfl
  · intro b fuel rest hf hr
    obtain ⟨f, rfl⟩ : ∃ f, fuel = f + 1 := ⟨fuel - 1, by rw [needFuel] at hf; omega⟩
    cases b <;> (rw [encJson]; rfl)
  · intro n fuel rest hf hr
    obtain ⟨f, rfl⟩ : ∃ f, fuel = f + 1 := ⟨fuel - 1, by rw [needFuel] at hf; omega⟩
    rw [encJson, intChars]
    by_cases hn : n < 0
    · rw [if_pos hn, List.cons_append]
      show (match takeDigits (natChars n.natAbs ++ rest) with
        | ([], _) => none
        | (ds, r) => some (Json.num (-(digitsVal 0 ds : Int)), r)) = _
      rw [takeDigits_natChars n.natAbs rest hr]
      have hne : ∃ hd tl, natChars n.natAbs = hd :: tl := by
        cases h : natChars n.natAbs with
        | nil => exact absurd h (natChars_ne_nil _)
        | cons a b => exact ⟨a, b, rfl⟩
      obtain ⟨hd, tl, hcons⟩ := hne
      rw [hcons]
      simp only []
      rw [← hcons, digitsVal_natChars_zero]
      have : -((n.natAbs : Int)) = n := by omega
      rw [this]
    · rw [if_neg hn]
      have h2 := parseVal_natChars f n.natAbs rest hr
      have : ((n.natAbs : Int)) = n := by omega
      rw [this] at h2
      exact h2
  · intro s fuel rest hf hr
    obtain ⟨f, rfl⟩ : ∃ f, fuel = f + 1 := ⟨fuel - 1, by rw [needFuel] at hf; omega⟩
    rw [encJson, encStr]
    show (parseStrBody ((escChars s.data ++ [quoteChar]) ++ rest)).map
      (fun p => (Json.str (String.mk p.1), p.2)) = _
    rw [List.append_assoc]
    simp only [List.singleton_append]
    rw [parseStrBody_esc]
    rfl
  · intro l IHmem fuel rest hf hr
    obtain ⟨f, rfl⟩ : ∃ f, fuel = f + 1 := ⟨fuel - 1, by rw [needFuel] at hf; omega⟩
    rw [encJson]
    cases l with
    | nil => rfl
    | cons j r =>
      show parseVal (f + 1)
        ('[' :: ((encElems (j :: r) ++ [']']) ++ rest)) = _
      rw [List.append_assoc]
      simp only [List.cons_append, List.nil_append]
      obtain ⟨hd, tl, hcons, hne1, hne2, hne3⟩ := encJson_head j
      have hexp : encElems (j :: r) ++ (']' :: rest) =
          hd :: (tl ++ (encElems (j :: r) ++ (']' :: rest))).drop tl.length.succ
            ∨ True := Or.inr trivial
      have hitems := parseItems_enc (j :: r) IHmem (by simp) f rest
        (by rw [needFuel] at hf; omega) hr
      have hhead : ∃ tl2, encElems (j :: r) ++ (']' :: rest) = hd :: tl2 := by
        cases r with
        | nil =>
          rw [encElems, hcons]
          exact ⟨_, rfl⟩
        | cons j2 r2 =>
          rw [encElems, hcons]
          exact ⟨_, rfl⟩
      obtain ⟨tl2, hcons2⟩ := hhead
      rw [hcons2]
      show (if hd = ']' then some (Json.arr [], tl2)
        else (parseItems f (hd :: tl2)).map (fun p => (Json.arr p.1, p.2))) = _
      rw [if_neg hne1, ← hcons2, hitems]
      rfl
  · intro l IHmem fuel rest hf hr
    obtain ⟨f, rfl⟩ : ∃ f, fuel = f + 1 := ⟨fuel - 1, by rw [needFuel] at hf; omega⟩
    rw [encJson]
    cases l with
    | nil => rfl
    | cons q r =>
      show parseVal (f + 1)
        (lbraceChar :: ((encFields (q :: r) ++ [rbraceChar]) ++ rest)) = _
      rw [List.append_assoc]
      simp only [List.cons_append, List.nil_append]
      have hmembers := parseMembers_enc (q :: r) IHmem (by simp) f rest
        (by rw [needFuel] at hf; omega) hr
      have hhead : ∃ tl2, encFields (q :: r) ++ (rbraceChar :: rest) =
          quoteChar :: tl2 := by
        obtain ⟨k, v⟩ := q
        cases r with
        | nil =>
          rw [encFields, encStr]
          exact ⟨_, rfl⟩
        | cons p r2 =>
          rw [encFields, encStr]
          exact ⟨_, rfl⟩
      obtain ⟨tl2, hcons2⟩ := hhead
      rw [hcons2]
      show (if quoteChar = rbraceChar then some (Json.obj [], tl2)
        else (parseMembers f (quoteChar :: tl2)).map (fun p => (Json.obj p.1, p.2))) = _
      rw [if_neg (by decide : ¬quoteChar = rbraceChar), ← hcons2, hmembers]
      rfl

/-- The fuel needed to parse back an array-elements serialization is
within one of its character count. -/
theorem needElems_le (l : List Json)
    (IH : ∀ e ∈ l, needFuel e ≤ (encJson e).length) :
    needElems l ≤ (encElems l).length + 1 := by
  match l with
  | [] => simp [needElems]
  | [j] =>
    rw [needElems, needElems, encElems]
    have := IH j (by simp)
    omega
  | j :: j2 :: r2 =>
    rw [needElems, encElems]
    have h1 := IH j (by simp)
    have h2 := needElems_le (j2 :: r2) (fun e he => IH e (by simp [he]))
    simp only [List.length_append, List.length_cons]
    omega

/-- The fuel needed to parse back an object-fields serialization is
within one of its character count. -/
theorem needMembers_le (l : List (String × Json))
    (IH : ∀ p ∈ l, needFuel p.2 ≤ (encJson p.2).length) :
    needMembers l ≤ (encFields l).length + 1 := by
  match l with
  | [] => simp [needMembers]
  | [(k, v)] =>
    rw [needMembers, needMembers, encFields]
    have h1 : needFuel (k, v).2 = needFuel v := rfl
    have h0 : (encJson (k, v).2).length = (encJson v).length := rfl
    have := IH (k, v) (by simp)
    simp only [List.length_append, List.length_cons]
    omega
  | (k, v) :: p :: r2 =>
    rw [needMembers, encFields]
    have h1 : needFuel (k, v).2 = needFuel v := rfl
    have h0 : (encJson (k, v).2).length = (encJson v).length := rfl
    have h2 := IH (k, v) (by simp)
    have h3 := needMembers_le (p :: r2) (fun q hq => IH q (by simp [hq]))
    simp only [List.length_append, List.length_cons]
    omega

/-- The fuel needed to parse back a serialized value never exceeds its
character count. -/
theorem needFuel_le : ∀ j, needFuel j ≤ (encJson j).length := by
  refine Json.inductionOn (fun j => needFuel j ≤ (encJson j).length)
    ?_ ?_ ?_ ?_ ?_ ?_
  · simp [needFuel, encJson]
    all_goals decide
  · intro b
    cases b <;> simp [needFuel, encJson] <;> all_goals decide
  · intro n
    simp only [needFuel]
    rw [encJson, intChars]
    by_cases hn : n < 0
    · rw [if_pos hn]; simp
    · rw [if_neg hn]
      have := natChars_ne_nil n.natAbs
      cases h : natChars n.natAbs with
      | nil => exact absurd h this
      | cons a b => simp
  · intro s
    simp only [needFuel]
    rw [encJson, encStr]
    simp
  · intro l IH
    simp only [needFuel]
    rw [encJson]
    have := needElems_le l IH
    simp only [List.length_cons, List.length_append, List.length_singleton]
    omega
  · intro l IH
    simp only [needFuel]
    rw [encJson]
    have := needMembers_le l IH
    simp only [List.length_cons, List.length_append, List.length_singleton]
    omega

/-- Round trip of the JSON codec: parsing a serialized value returns the
value (JSON.parse of JSON.stringify is the identity). -/
theorem jsonParse_stringify (j : Json) : jsonParse (jsonStringify j) = some j := by
  have h := parsesBack_all j ((encJson j).length + 1) []
    (by have := needFuel_le j; omega) rfl
  rw [List.append_nil] at h
  show (match parseVal ((encJson j).length + 1) (encJson j) with
    | some (v, []) => some v
    | _ => none) = some j
  rw [h]

/-- Round trip for the decimal rendering under the JavaScript parseInt:
helper that reads a rendered natural number. -/
theorem takeDigits_natChars_nil (m : Nat) :
    takeDigits (natChars m) = (natChars m, []) := by
  have h := takeDigits_natChars m [] rfl
  rwa [List.append_nil] at h

theorem jsParseIntAux_natChars (m : Nat) :
    jsParseIntAux (natChars m) = some (m : Int) := by
  obtain ⟨hd, tl, hcons⟩ : ∃ hd tl, natChars m = hd :: tl := by
    cases h : natChars m with
    | nil => exact absurd h (natChars_ne_nil _)
    | cons a b => exact ⟨a, b, rfl⟩
  have hdig : isDigitChar hd = true := natChars_digits m hd (by rw [hcons]; simp)
  have h1 : hd ≠ '-' := fun h => absurd (h ▸ hdig) (by decide)
  have h2 : hd ≠ '+' := fun h => absurd (h ▸ hdig) (by decide)
  rw [hcons, jsParseIntAux, if_neg h1, if_neg h2, ← hcons, takeDigits_natChars_nil]
  have hne : natChars m ≠ [] := natChars_ne_nil m
  cases h : natChars m with
  | nil => exact absurd h hne
  | cons a b =>
    simp only []
    rw [← h, digitsVal_natChars_zero]

/-- Round trip of the decimal rendering through parseInt for nonnegative
integers (a rendered page or perPage read back from the URL). -/
theorem jsParseInt_intString (n : Int) (h : 0 ≤ n) :
    jsParseInt (intString n) = some n := by
  rw [jsParseInt, intString, intChars, if_neg (by omega)]
  show jsParseIntAux ((natChars n.natAbs).dropWhile isJsSpace) = _
  obtain ⟨hd, tl, hcons⟩ : ∃ hd tl, natChars n.natAbs = hd :: tl := by
    cases hh : natChars n.natAbs with
    | nil => exact absurd hh (natChars_ne_nil _)
    | cons a b => exact ⟨a, b, rfl⟩
  have hdig : isDigitChar hd = true :=
    natChars_digits n.natAbs hd (by rw [hcons]; simp)
  have hns : isJsSpace hd = false := by
    simp only [isDigitChar] at hdig
    simp only [isJsSpace]
    simp at hdig ⊢
    omega
  rw [hcons, List.dropWhile_cons, hns]
  simp only [Bool.false_eq_true, if_false]
  rw [← hcons, jsParseIntAux_natChars]
  congr 1
  omega

/-- The serialization of a JSON value is never the empty string. -/
theorem jsonStringify_ne_empty (j : Json) : jsonStringify j ≠ "" := by
  obtain ⟨hd, tl, hcons, h1, h2, h3⟩ := encJson_head j
  rw [jsonStringify, hcons]
  intro hcontra
  have : (String.mk (hd :: tl)).data = ("" : String).data := by rw [hcontra]
  simp at this

/-- Page projection of the finalize stage: the base page when present,
else 1, coerced with fallback 1. -/
theorem finalize_page (base : QueryBase) (sort : SortPayload) (perPage : Int) :
    (finalizeQuery base sort perPage).page =
      getNumberOrDefault (if base.page.isSome then base.page else some (.num 1)) 1 := by
  simp only [finalizeQuery]
  split_ifs <;> simp_all

/-- Per-page projection of the finalize stage: the base perPage when
present, else the caller default, coerced with fallback 10. -/
theorem finalize_perPage (base : QueryBase) (sort : SortPayload) (perPage : Int) :
    (finalizeQuery base sort perPage).perPage =
      getNumberOrDefault
        (if base.perPage.isSome then base.perPage else some (.num perPage)) 10 := by
  simp only [finalizeQuery]
  split_ifs <;> simp_all

/-- Sort projection of the finalize stage. -/
theorem finalize_sort (base : QueryBase) (sort : SortPayload) (perPage : Int) :
    (finalizeQuery base sort perPage).sort =
      if optStrTruthy base.sort then base.sort else some sort.field := by
  simp only [finalizeQuery]
  split_ifs <;> simp_all

/-- Order projection of the finalize stage: the caller's default order is
written only together with the default sort field. -/
theorem finalize_order (base : QueryBase) (sort : SortPayload) (perPage : Int) :
    (finalizeQuery base sort perPage).order =
      if optStrTruthy base.sort then base.order else some sort.order := by
  simp only [finalizeQuery]
  split_ifs <;> simp_all

/-- Filters projection of the finalize stage: carried over unchanged. -/
theorem finalize_filters (base : QueryBase) (sort : SortPayload) (perPage : Int) :
    (finalizeQuery base sort perPage).filters = base.filters := by
  simp only [finalizeQuery]
  split_ifs <;> simp_all

/-- Displayed-filters projection of the finalize stage. -/
theorem finalize_displayedFilters (base : QueryBase) (sort : SortPayload)
    (perPage : Int) :
    (finalizeQuery base sort perPage).displayedFilters = base.displayedFilters := by
  simp only [finalizeQuery]
  split_ifs <;> simp_all

/-- Leftover legacy filter key projection of the finalize stage. -/
theorem finalize_filter (base : QueryBase) (sort : SortPayload) (perPage : Int) :
    (finalizeQuery base sort perPage).filter = base.filter := by
  simp only [finalizeQuery]
  split_ifs <;> simp_all

/-- C6: hasCustomParams returns true exactly when the stored params
deviate from the neutral shape: it is false on the neutral object
(filters empty, order null, page 1, perPage null, sort null); for every
params object whose filters field is a filter list (or absent) it is true
iff filters is non-empty, or order is set, or page is not 1, or perPage
is set, or sort is set; and changing any single neutral field to a
non-neutral value makes it true. -/
theorem c6_hasCustomParams_characterization :
    hasCustomParams (some neutralParams) = false ∧
    (∀ p : StoredParams,
      (p.filters = none ∨ ∃ l, p.filters = some (.json (.arr l))) →
      (hasCustomParams (some p) = true ↔
        ((∃ l, p.filters = some (.json (.arr l)) ∧ l ≠ []) ∨
         p.order.isSome = true ∨ p.page ≠ some 1 ∨
         p.perPage.isSome = true ∨ p.sort.isSome = true))) ∧
    hasCustomParams (some { neutralParams with
      filters := some (.json (.arr [filterItem "published" "=" (.bool true)])) }) = true ∧
    hasCustomParams (some { neutralParams with order := some "ASC" }) = true ∧
    hasCustomParams (some { neutralParams with page := some 2 }) = true ∧
    hasCustomParams (some { neutralParams with perPage := some 25 }) = true ∧
    hasCustomParams (some { neutralParams with sort := some "name" }) = true := by
  refine ⟨rfl, ?_, rfl, rfl, rfl, rfl, rfl⟩
  intro p hshape
  rcases hshape with hf | ⟨l, hf⟩ <;>
    (simp [hasCustomParams, hf, fvTruthy, fvLengthPos, List.length_pos, jsTruthy]
     tauto)

/-- C6 witness: the characterization applied to the neutral shape. -/
theorem c6_witness :
    (neutralParams.filters = none ∨
      ∃ l, neutralParams.filters = some (.json (.arr l))) ∧
    (hasCustomParams (some neutralParams) = true ↔
      ((∃ l, neutralParams.filters = some (.json (.arr l)) ∧ l ≠ []) ∨
       neutralParams.order.isSome = true ∨ neutralParams.page ≠ some 1 ∨
       neutralParams.perPage.isSome = true ∨ neutralParams.sort.isSome = true)) :=
  ⟨Or.inr ⟨[], rfl⟩,
    c6_hasCustomParams_characterization.2.1 neutralParams (Or.inr ⟨[], rfl⟩)⟩

/-- C4: for every chosen base, the finalize stage injects the caller's
default sort field and order when sort is absent, the caller's perPage
when perPage is absent, and page 1 when page is absent; page and perPage
are coerced to integers with fallback defaults 1 and 10 when coercion
fails; getNumberOrDefault of "abc" with default 10 is 10, of "7" with
default 10 is 7, of an absent value with default 1 is 1, and the fallback
is taken for every string parseInt cannot read and for every absent
value. -/
theorem c4_defaults_and_coercion :
    (∀ (base : QueryBase) (sort : SortPayload) (perPage : Int),
      (base.sort = none →
        (finalizeQuery base sort perPage).sort = some sort.field ∧
        (finalizeQuery base sort perPage).order = some sort.order) ∧
      (base.perPage = none → (finalizeQuery base sort perPage).perPage = perPage) ∧
      (base.page = none → (finalizeQuery base sort perPage).page = 1) ∧
      (∀ s, base.page = some (.str s) → jsParseInt s = none →
        (finalizeQuery base sort perPage).page = 1) ∧
      (∀ s, base.perPage = some (.str s) → jsParseInt s = none →
        (finalizeQuery base sort perPage).perPage = 10)) ∧
    getNumberOrDefault (some (.str "abc")) 10 = 10 ∧
    getNumberOrDefault (some (.str "7")) 10 = 7 ∧
    getNumberOrDefault none 1 = 1 ∧
    (∀ s d, jsParseInt s = none → getNumberOrDefault (some (.str s)) d = d) ∧
    (∀ d, getNumberOrDefault none d = d) := by
  refine ⟨?_, rfl, rfl, rfl, ?_, ?_⟩
  · intro base sort perPage
    refine ⟨?_, ?_, ?_, ?_, ?_⟩
    · intro hs
      rw [finalize_sort, finalize_order, hs]
      simp [optStrTruthy]
    · intro hp
      rw [finalize_perPage, hp]
      rfl
    · intro hp
      rw [finalize_page, hp]
      rfl
    · intro s hp hparse
      rw [finalize_page, hp]
      simp [getNumberOrDefault, jsParseInt] at hparse ⊢
      rw [show jsParseIntAux (s.data.dropWhile isJsSpace) = none from hparse]
    · intro s hp hparse
      rw [finalize_perPage, hp]
      simp [getNumberOrDefault, jsParseInt] at hparse ⊢
      rw [show jsParseIntAux (s.data.dropWhile isJsSpace) = none from hparse]
  · intro s d hparse
    simp [getNumberOrDefault, jsParseInt] at hparse ⊢
    rw [show jsParseIntAux (s.data.dropWhile isJsSpace) = none from hparse]
  · intro d
    rfl

/-- C4 witness: the injection statements at a concrete empty base and the
string fallback at a concrete non-numeric string. -/
theorem c4_witness :
    (({} : QueryBase).sort = none ∧
      (finalizeQuery {} ⟨"id", "ASC"⟩ 25).sort = some "id" ∧
      (finalizeQuery {} ⟨"id", "ASC"⟩ 25).order = some "ASC") ∧
    (({} : QueryBase).perPage = none ∧ (finalizeQuery {} ⟨"id", "ASC"⟩ 25).perPage = 25) ∧
    (({} : QueryBase).page = none ∧ (finalizeQuery {} ⟨"id", "ASC"⟩ 25).page = 1) ∧
    (jsParseInt "xyz" = none ∧ getNumberOrDefault (some (.str "xyz")) 42 = 42) := by
  have h := (c4_defaults_and_coercion.1 {} ⟨"id", "ASC"⟩ 25)
  have h4 := c4_defaults_and_coercion.2.2.2.2.1 "xyz" 42 rfl
  exact ⟨⟨rfl, (h.1 rfl).1, (h.1 rfl).2⟩, ⟨rfl, h.2.1 rfl⟩, ⟨rfl, h.2.2.1 rfl⟩,
    ⟨rfl, h4⟩⟩

/-- C10: when the chosen base carries a (truthy) sort field but no order,
the resolved parameters leave order absent: the caller's default order is
injected only together with the default sort field. -/
theorem c10_no_lone_order_injection :
    ∀ (base : QueryBase) (sort : SortPayload) (perPage : Int) (s : String),
      base.sort = some s → s ≠ "" → base.order = none →
      (finalizeQuery base sort perPage).order = none := by
  intro base sort perPage s hs hne ho
  rw [finalize_order, hs] at *
  simp [optStrTruthy, hne, ho]

/-- C10 witness: a base sorted by title with no order keeps order
absent. -/
theorem c10_witness :
    ({ sort := some "title" } : QueryBase).sort = some "title" ∧
    ("title" : String) ≠ "" ∧
    ({ sort := some "title" } : QueryBase).order = none ∧
    (finalizeQuery { sort := some "title" } ⟨"id", "ASC"⟩ 10).order = none :=
  ⟨rfl, by decide, rfl,
    c10_no_lone_order_injection { sort := some "title" } ⟨"id", "ASC"⟩ 10 "title"
      rfl (by decide) rfl⟩

/-- C1: getQuery chooses its base by strict priority: a URL query with at
least one recognized key is used verbatim; otherwise customized stored
params are copied as the base; otherwise the base holds only
filters = defaultFilters (or the empty list); in each case the chosen
base then goes through the same default-injection and coercion stage. -/
theorem c1_base_priority :
    ∀ (q : QueryBase) (params : Option StoredParams) (fdv : Option (List Json))
      (sort : SortPayload) (perPage : Int),
      (0 < numKeys q →
        getQuery q params fdv sort perPage = finalizeQuery q sort perPage) ∧
      (numKeys q = 0 → hasCustomParams params = true →
        getQuery q params fdv sort perPage =
          finalizeQuery (storedToBase params) sort perPage) ∧
      (numKeys q = 0 → hasCustomParams params = false →
        getQuery q params fdv sort perPage =
          finalizeQuery { filters := some (.json (.arr (fdv.getD []))) }
            sort perPage) := by
  intro q params fdv sort perPage
  refine ⟨?_, ?_, ?_⟩
  · intro h
    rw [getQuery, if_pos h]
  · intro h0 hc
    rw [getQuery, if_neg (by omega), if_pos hc]
  · intro h0 hc
    rw [getQuery, if_neg (by omega), if_neg (by simp [hc])]

/-- C1 witness: with an empty URL query and customized stored params the
stored params are the base; instantiated at stored params with page 3. -/
theorem c1_witness :
    numKeys {} = 0 ∧
    hasCustomParams (some { neutralParams with page := some 3 }) = true ∧
    getQuery {} (some { neutralParams with page := some 3 }) none ⟨"id", "ASC"⟩ 10 =
      finalizeQuery (storedToBase (some { neutralParams with page := some 3 }))
        ⟨"id", "ASC"⟩ 10 :=
  ⟨rfl, rfl,
    (c1_base_priority {} (some { neutralParams with page := some 3 }) none
      ⟨"id", "ASC"⟩ 10).2.1 rfl rfl⟩

/-- Positivity of the finalize stage under positive inputs: when every
page / perPage value carried by the base is at least 1 wherever it is a
number or a string parseInt can read, the resolved page and perPage are
at least 1. -/
theorem finalize_ge_one (base : QueryBase) (sort : SortPayload) (perPage : Int)
    (hpp : 1 ≤ perPage)
    (b1 : ∀ s n, base.page = some (.str s) → jsParseInt s = some n → 1 ≤ n)
    (b2 : ∀ n, base.page = some (.num n) → 1 ≤ n)
    (b3 : ∀ s n, base.perPage = some (.str s) → jsParseInt s = some n → 1 ≤ n)
    (b4 : ∀ n, base.perPage = some (.num n) → 1 ≤ n) :
    1 ≤ (finalizeQuery base sort perPage).page ∧
    1 ≤ (finalizeQuery base sort perPage).perPage := by
  constructor
  · rw [finalize_page]
    cases hbp : base.page with
    | none => simp [getNumberOrDefault]
    | some v =>
      simp only [hbp, Option.isSome_some, if_true]
      cases v with
      | num n =>
        simpa [getNumberOrDefault] using b2 n hbp
      | str s =>
        simp only [getNumberOrDefault]
        cases hps : jsParseInt s with
        | none => simp [hps]
        | some n =>
          simp only [hps]
          exact b1 s n hbp hps
  · rw [finalize_perPage]
    cases hbp : base.perPage with
    | none => simpa [getNumberOrDefault] using hpp
    | some v =>
      simp only [hbp, Option.isSome_some, if_true]
      cases v with
      | num n =>
        simpa [getNumberOrDefault] using b4 n hbp
      | str s =>
        simp only [getNumberOrDefault]
        cases hps : jsParseInt s with
        | none => simp [hps]
        | some n =>
          simp only [hps]
          exact b3 s n hbp hps

/-- C5 counterexample: a URL query page=0 resolves to page 0, violating
the claimed invariant page at least 1 (parseInt reads 0 and no clamping
occurs). -/
theorem c5_counterexample :
    (getQuery { page := some (.str "0") } none none ⟨"id", "ASC"⟩ 10).page = 0 ∧
    ¬(1 ≤ (getQuery { page := some (.str "0") } none none ⟨"id", "ASC"⟩ 10).page) := by
  constructor
  · rfl
  · decide

/-- C5 amended: the resolved page and perPage are at least 1 provided the
caller default perPage is at least 1 and every page / perPage value of
the URL query and of the stored params that parses to a number is at
least 1; without those provisos the URL can force page 0 as the
counterexample shows. -/
theorem c5_amended :
    ∀ (q : QueryBase) (params : Option StoredParams) (fdv : Option (List Json))
      (sort : SortPayload) (perPage : Int),
      1 ≤ perPage →
      (∀ s n, q.page = some (.str s) → jsParseInt s = some n → 1 ≤ n) →
      (∀ n, q.page = some (.num n) → 1 ≤ n) →
      (∀ s n, q.perPage = some (.str s) → jsParseInt s = some n → 1 ≤ n) →
      (∀ n, q.perPage = some (.num n) → 1 ≤ n) →
      (∀ p n, params = some p → p.page = some n → 1 ≤ n) →
      (∀ p n, params = some p → p.perPage = some n → 1 ≤ n) →
      1 ≤ (getQuery q params fdv sort perPage).page ∧
      1 ≤ (getQuery q params fdv sort perPage).perPage := by
  intro q params fdv sort perPage hpp h1 h2 h3 h4 h5 h6
  rw [getQuery]
  split_ifs with hq hc
  · exact finalize_ge_one q sort perPage hpp h1 h2 h3 h4
  · cases params with
    | none => simp [hasCustomParams] at hc
    | some p =>
      have hsb1 : (storedToBase (some p)).page = p.page.map NumOrStr.num := rfl
      have hsb2 : (storedToBase (some p)).perPage = p.perPage.map NumOrStr.num := rfl
      refine finalize_ge_one _ sort perPage hpp ?_ ?_ ?_ ?_
      · intro s n hmap hparse
        rw [hsb1] at hmap
        cases hpage : p.page <;> rw [hpage] at hmap <;> simp at hmap
      · intro n hmap
        rw [hsb1] at hmap
        cases hpage : p.page with
        | none => rw [hpage] at hmap; simp at hmap
        | some m =>
          rw [hpage] at hmap
          simp at hmap
          subst hmap
          exact h5 p m rfl hpage
      · intro s n hmap hparse
        rw [hsb2] at hmap
        cases hpage : p.perPage <;> rw [hpage] at hmap <;> simp at hmap
      · intro n hmap
        rw [hsb2] at hmap
        cases hpage : p.perPage with
        | none => rw [hpage] at hmap; simp at hmap
        | some m =>
          rw [hpage] at hmap
          simp at hmap
          subst hmap
          exact h6 p m rfl hpage
  · refine finalize_ge_one _ sort perPage hpp ?_ ?_ ?_ ?_
    · intro s n hmap hparse
      simp at hmap
    · intro n hmap
      simp at hmap
    · intro s n hmap hparse
      simp at hmap
    · intro n hmap
      simp at hmap

/-- C5 witness: the amended statement at a URL query page=3, perPage=25
with no stored params. -/
theorem c5_witness :
    (1 ≤ (10 : Int)) ∧
    1 ≤ (getQuery { page := some (.str "3"), perPage := some (.str "25") }
        none none ⟨"id", "ASC"⟩ 10).page ∧
    1 ≤ (getQuery { page := some (.str "3"), perPage := some (.str "25") }
        none none ⟨"id", "ASC"⟩ 10).perPage := by
  have h := c5_amended { page := some (.str "3"), perPage := some (.str "25") }
    none none ⟨"id", "ASC"⟩ 10 (by decide)
    (by intro s n hs hp
        simp at hs
        subst hs
        rw [show jsParseInt "3" = some 3 from rfl] at hp
        simp at hp
        omega)
    (by intro n h; simp at h)
    (by intro s n hs hp
        simp at hs
        subst hs
        rw [show jsParseInt "25" = some 25 from rfl] at hp
        simp at hp
        omega)
    (by intro n h; simp at h)
    (by intro p n h; simp at h)
    (by intro p n h; simp at h)
  exact ⟨by decide, h.1, h.2⟩

/-- Accumulation of further changeParams calls on a tick that already has
pending params: the pending value folds the reducer, and no further
callback is scheduled. -/
theorem submit_accumulate (query : ListParamsR) :
    ∀ (rest : List Action) (st : BatchState) (t : ListParamsR),
      st.temp = some t →
      List.foldl (changeParams query) st rest =
        { temp := some (List.foldl queryReducer t rest),
          scheduled := st.scheduled, firstAction := st.firstAction } := by
  intro rest
  induction rest with
  | nil =>
    intro st t ht
    obtain ⟨st1, st2, st3⟩ := st
    simp at ht
    simp [List.foldl, ht]
  | cons a rest ih =>
    intro st t ht
    simp only [List.foldl]
    have hstep : changeParams query st a = { st with temp := some (queryReducer t a) } := by
      rw [changeParams, ht]
    rw [hstep, ih { st with temp := some (queryReducer t a) } (queryReducer t a) rfl]

/-- C2 (the reducer is modelled from the spec): any nonempty sequence of
changeParams calls in one tick schedules exactly one flush, and the
pending ParameterSet it commits is the reducer folded over the resolved
query with the actions in call order; the local-mode flush commits it
exactly once. -/
theorem c2_one_flush_folds_actions :
    ∀ (query : ListParamsR) (a : Action) (rest : List Action),
      (submitAll query (a :: rest)).scheduled = 1 ∧
      (submitAll query (a :: rest)).temp =
        some (List.foldl queryReducer query (a :: rest)) ∧
      runCallbacksLocal (submitAll query (a :: rest)).scheduled
          (submitAll query (a :: rest)) =
        [some (List.foldl queryReducer query (a :: rest))] := by
  intro query a rest
  have hfirst : changeParams query initialBatch a =
      { temp := some (queryReducer query a), scheduled := 1,
        firstAction := some a } := rfl
  have hall : submitAll query (a :: rest) =
      { temp := some (List.foldl queryReducer (queryReducer query a) rest),
        scheduled := 1, firstAction := some a } := by
    show List.foldl (changeParams query) initialBatch (a :: rest) = _
    rw [List.foldl_cons, hfirst,
      submit_accumulate query rest _ (queryReducer query a) rfl]
  rw [hall]
  refine ⟨rfl, by rw [List.foldl_cons], ?_⟩
  rw [List.foldl_cons]
  rfl

/-- C2 example: setPage 2 then setPage 5 in one tick yields one scheduled
flush whose committed page is 5. -/
theorem c2_example :
    (submitAll exampleParams [.setPage 2, .setPage 5]).scheduled = 1 ∧
    ((submitAll exampleParams [.setPage 2, .setPage 5]).temp.map
      (fun p => p.page)) = some 5 := by
  have h := c2_one_flush_folds_actions exampleParams (.setPage 2) [.setPage 5]
  refine ⟨h.1, ?_⟩
  rw [h.2.1]
  rfl

/-- C9 (the reducer is modelled from the spec): a flushed batch in
URL-sync mode issues exactly one navigation request; its query serializes
the pending ParameterSet with filters and displayedFilters individually
JSON-serialized, and its scroll-to-top flag is set iff the first
submitted action of the batch was a set-page action, regardless of later
actions. -/
theorem c9_single_navigation :
    ∀ (query : ListParamsR) (a : Action) (rest : List Action),
      runCallbacksNav (submitAll query (a :: rest)).scheduled
          (submitAll query (a :: rest)) =
        [{ search := serializeParams (List.foldl queryReducer query (a :: rest)),
           scrollToTop := isSetPage a }] := by
  intro query a rest
  have hfirst : changeParams query initialBatch a =
      { temp := some (queryReducer query a), scheduled := 1,
        firstAction := some a } := rfl
  have hall : submitAll query (a :: rest) =
      { temp := some (List.foldl queryReducer (queryReducer query a) rest),
        scheduled := 1, firstAction := some a } := by
    show List.foldl (changeParams query) initialBatch (a :: rest) = _
    rw [List.foldl_cons, hfirst,
      submit_accumulate query rest _ (queryReducer query a) rfl]
  rw [hall, List.foldl_cons]
  rfl

/-- C7: a URL query whose only filter-carrying key is the deprecated
singular filter key holding a JSON object is converted into a filters
list with one FilterItem per key of the object, each with operator "="
and the object's value, and the filter key is absent from the result. -/
theorem c7_legacy_filter_conversion :
    ∀ (raw : List (String × String)) (s : String) (fields : List (String × Json)),
      getRaw raw "filters" = none →
      getRaw raw "filter" = some s →
      s ≠ "" →
      jsonParse s = some (.obj fields) →
      (parseQueryFromLocation raw).filters =
        some (.json (.arr (fields.map (fun kv => filterItem kv.1 "=" kv.2)))) ∧
      (parseQueryFromLocation raw).filter = none := by
  intro raw s fields hfs hf hne hparse
  rw [parseQueryFromLocation]
  simp [hfs, hf, hne, hparse, parseObject, jsKeys]

/-- C7 witness: the legacy key holding the serialized object with a
single published field yields a single FilterItem with operator "=". -/
theorem c7_witness :
    getRaw [("filter", jsonStringify (.obj [("published", .bool true)]))]
      "filters" = none ∧
    getRaw [("filter", jsonStringify (.obj [("published", .bool true)]))]
      "filter" = some (jsonStringify (.obj [("published", .bool true)])) ∧
    jsonStringify (.obj [("published", .bool true)]) ≠ "" ∧
    jsonParse (jsonStringify (.obj [("published", .bool true)])) =
      some (.obj [("published", .bool true)]) ∧
    (parseQueryFromLocation
        [("filter", jsonStringify (.obj [("published", .bool true)]))]).filters =
      some (.json (.arr [filterItem "published" "=" (.bool true)])) ∧
    (parseQueryFromLocation
        [("filter", jsonStringify (.obj [("published", .bool true)]))]).filter =
      none := by
  have happ := c7_legacy_filter_conversion
    [("filter", jsonStringify (.obj [("published", .bool true)]))]
    (jsonStringify (.obj [("published", .bool true)]))
    [("published", .bool true)]
    rfl rfl (jsonStringify_ne_empty _) (jsonParse_stringify _)
  exact ⟨rfl, rfl, jsonStringify_ne_empty _, jsonParse_stringify _,
    happ.1, happ.2⟩

/-- C8 counterexample: the empty string is not valid JSON, yet a URL
query filters value that is the empty string is not removed: parseObject
only parses truthy string values, so the key survives holding the raw
empty string. -/
theorem c8_counterexample :
    jsonParse "" = none ∧
    (parseQueryFromLocation [("filters", "")]).filters = some (.raw "") := by
  exact ⟨rfl, rfl⟩

/-- C8 amended: a filters or displayedFilters value that is a nonempty
string rejected by JSON.parse is silently dropped from the result (for
filters, provided no legacy filter key re-populates it), and a malformed
nonempty legacy filter value is swallowed and its key deleted; the empty
string, although not valid JSON, is left in place untouched. -/
theorem c8_amended :
    (∀ (raw : List (String × String)) (s : String),
      getRaw raw "filters" = some s → s ≠ "" → jsonParse s = none →
      getRaw raw "filter" = none →
      (parseQueryFromLocation raw).filters = none) ∧
    (∀ (raw : List (String × String)) (s : String),
      getRaw raw "displayedFilters" = some s → s ≠ "" → jsonParse s = none →
      (parseQueryFromLocation raw).displayedFilters = none) ∧
    (∀ (raw : List (String × String)) (s : String),
      getRaw raw "filters" = none →
      getRaw raw "filter" = some s → s ≠ "" → jsonParse s = none →
      (parseQueryFromLocation raw).filters = none ∧
      (parseQueryFromLocation raw).filter = none) := by
  refine ⟨?_, ?_, ?_⟩
  · intro raw s hfs hne hparse hleg
    rw [parseQueryFromLocation]
    simp [hfs, hne, hparse, hleg, parseObject]
  · intro raw s hds hne hparse
    rw [parseQueryFromLocation]
    split_ifs <;> simp [hds, hne, hparse, parseObject]
  · intro raw s hfs hleg hne hparse
    rw [parseQueryFromLocation]
    simp [hfs, hleg, hne, hparse, parseObject]

/-- C8 witness: the amended statement at the malformed nonempty values
"nope" for filters (with no legacy key) and for displayedFilters. -/
theorem c8_witness :
    (getRaw [("filters", "nope")] "filters" = some "nope" ∧
      ("nope" : String) ≠ "" ∧ jsonParse "nope" = none ∧
      getRaw [("filters", "nope")] "filter" = none ∧
      (parseQueryFromLocation [("filters", "nope")]).filters = none) ∧
    (getRaw [("displayedFilters", "nope")] "displayedFilters" = some "nope" ∧
      (parseQueryFromLocation [("displayedFilters", "nope")]).displayedFilters =
        none) := by
  refine ⟨⟨rfl, by decide, rfl, rfl, ?_⟩, ⟨rfl, ?_⟩⟩
  · exact c8_amended.1 [("filters", "nope")] "nope" rfl (by decide) rfl rfl
  · exact c8_amended.2.1 [("displayedFilters", "nope")] "nope" rfl (by decide) rfl

/-- Extensionality of resolved list parameters. -/
theorem listParamsR_ext {a b : ListParamsR} (h1 : a.page = b.page)
    (h2 : a.perPage = b.perPage) (h3 : a.sort = b.sort) (h4 : a.order = b.order)
    (h5 : a.filters = b.filters) (h6 : a.displayedFilters = b.displayedFilters)
    (h7 : a.filter = b.filter) : a = b := by
  cases a
  cases b
  simp_all

/-- C3: serializing a valid ParameterSet into the URL query as the flush
does (filters and displayedFilters JSON-stringified) and resolving that
query reproduces the ParameterSet exactly: its page, perPage, sort,
order, filters and displayedFilters all round-trip, for any stored params
and caller defaults. -/
theorem c3_roundtrip :
    ∀ (P : ListParamsR) (params : Option StoredParams) (fdv : Option (List Json))
      (sort0 : SortPayload) (perPage0 : Int) (s o : String) (l : List Json)
      (d : Json),
      1 ≤ P.page → 1 ≤ P.perPage →
      P.sort = some s → s ≠ "" →
      P.order = some o →
      P.filters = some (.json (.arr l)) →
      P.displayedFilters = some (.json d) →
      P.filter = none →
      getQuery (parseQueryFromLocation (serializeParams P)) params fdv sort0
        perPage0 = P := by
  intro P params fdv sort0 perPage0 s o l d hpage hpp hsort hsne horder hfilters
    hdf hfl
  obtain ⟨pg, ppg, ps, po, pf, pd, pfl⟩ := P
  simp only at hpage hpp hsort hsne horder hfilters hdf hfl
  subst hsort horder hfilters hdf hfl
  have hser : serializeParams
      ⟨pg, ppg, some s, some o, some (.json (.arr l)), some (.json d), none⟩ =
      [("displayedFilters", jsonStringify d),
       ("filters", jsonStringify (.arr l)),
       ("order", o),
       ("page", intString pg), ("perPage", intString ppg),
       ("sort", s)] := rfl
  rw [hser]
  have e1 : parseObject (getRaw
      [("displayedFilters", jsonStringify d),
       ("filters", jsonStringify (.arr l)),
       ("order", o),
       ("page", intString pg), ("perPage", intString ppg),
       ("sort", s)] "filters") = some (.json (.arr l)) := by
    rw [show getRaw
      [("displayedFilters", jsonStringify d),
       ("filters", jsonStringify (.arr l)),
       ("order", o),
       ("page", intString pg), ("perPage", intString ppg),
       ("sort", s)] "filters" = some (jsonStringify (.arr l)) from rfl,
      parseObject, if_pos (jsonStringify_ne_empty (.arr l))]
    simp only [jsonParse_stringify]
  have e2 : parseObject (getRaw
      [("displayedFilters", jsonStringify d),
       ("filters", jsonStringify (.arr l)),
       ("order", o),
       ("page", intString pg), ("perPage", intString ppg),
       ("sort", s)] "displayedFilters") = some (.json d) := by
    rw [show getRaw
      [("displayedFilters", jsonStringify d),
       ("filters", jsonStringify (.arr l)),
       ("order", o),
       ("page", intString pg), ("perPage", intString ppg),
       ("sort", s)] "displayedFilters" = some (jsonStringify d) from rfl,
      parseObject, if_pos (jsonStringify_ne_empty d)]
    simp only [jsonParse_stringify]
  have hparsed : parseQueryFromLocation
      [("displayedFilters", jsonStringify d),
       ("filters", jsonStringify (.arr l)),
       ("order", o),
       ("page", intString pg), ("perPage", intString ppg),
       ("sort", s)] =
      { page := some (.str (intString pg)),
        perPage := some (.str (intString ppg)),
        sort := some s, order := some o,
        filters := some (.json (.arr l)),
        displayedFilters := some (.json d),
        filter := none } := by
    rw [parseQueryFromLocation]
    simp only [e1, e2]
    rfl
  rw [hparsed, getQuery, if_pos (by simp [numKeys])]
  refine listParamsR_ext ?_ ?_ ?_ ?_ ?_ ?_ ?_
  · rw [finalize_page]
    simp only [Option.isSome_some, if_true, getNumberOrDefault,
      jsParseInt_intString pg (by omega)]
  · rw [finalize_perPage]
    simp only [Option.isSome_some, if_true, getNumberOrDefault,
      jsParseInt_intString ppg (by omega)]
  · rw [finalize_sort]
    simp [optStrTruthy, hsne]
  · rw [finalize_order]
    simp [optStrTruthy, hsne]
  · rw [finalize_filters]
  · rw [finalize_displayedFilters]
  · rw [finalize_filter]

/-- C3 witness: the round trip at a concrete ParameterSet with page 3,
perPage 25, sort name descending and a published filter. -/
theorem c3_witness :
    (1 ≤ exampleParamsFull.page ∧ 1 ≤ exampleParamsFull.perPage ∧
      exampleParamsFull.sort = some "name" ∧ ("name" : String) ≠ "" ∧
      exampleParamsFull.order = some "DESC" ∧
      exampleParamsFull.filters =
        some (.json (.arr [filterItem "published" "=" (.bool true)])) ∧
      exampleParamsFull.displayedFilters =
        some (.json (.obj [("published", .bool true)])) ∧
      exampleParamsFull.filter = none) ∧
    getQuery (parseQueryFromLocation (serializeParams exampleParamsFull))
      (some neutralParams) none ⟨"id", "ASC"⟩ 10 = exampleParamsFull :=
  ⟨⟨by decide, by decide, rfl, by decide, rfl, rfl, rfl, rfl⟩,
    c3_roundtrip exampleParamsFull (some neutralParams) none ⟨"id", "ASC"⟩ 10
      "name" "DESC" [filterItem "published" "=" (.bool true)]
      (.obj [("published", .bool true)])
      (by decide) (by decide) rfl (by decide) rfl rfl rfl rfl⟩

end ListQuery
